import Mathlib

/-!
Verification of the anchor-transform tool (maya-anchor-transform).

Shallow embedding of the two source variants:
  * `src/scripts/anchorTransform/commands.py` + `src/scripts/anchorTransform/utils.py`
    (the current variant, `anchorTransform` / `anchorSelection`),
  * `src/__init__.py` + `src/utils.py` (the legacy variant, identical except the
    per-frame loop bound `range(start, end + 1)`).

Host (Maya) state is modelled by a `Scene` record of query functions; host
mutations are recorded as a trace of `Op` values; Python exceptions are modelled
by `Except String`.  `HostM` is the writer-plus-exception monad in which the
commands run: ops emitted before an exception are kept (they happened), the
exception aborts the rest of the computation, and the `with UndoChunkContext()`
wrapper closes the undo chunk on both the normal and the exceptional path.
-/

/-- 4x4 pose matrix (`OpenMaya.MMatrix`), with exact rational entries. -/
abbrev Mat4 : Type := Matrix (Fin 4) (Fin 4) ℚ

/-- A triple of scalar channel values (x, y, z). -/
abbrev Vec3 : Type := ℚ × ℚ × ℚ

/-- One host mutation issued by the tool:
`undoOpen`/`undoClose` are `cmds.undoInfo(openChunk=True)` / `(closeChunk=True)`,
`setKey` is `cmds.setKeyframe(node, t=.., v=.., inTangentType=.., outTangentType=..)`,
`filterCurve` is `cmds.filterCurve(*curves, filter="euler")`. -/
inductive Op where
  | undoOpen : Op
  | undoClose : Op
  | setKey (node : String) (time : Int) (value : ℚ)
      (inTangentType : String) (outTangentType : String) : Op
  | filterCurve (curves : List String) : Op
deriving DecidableEq

/-- One incoming connection of a plug, as reported by `cmds.listConnections`;
`isAnimCurve` records whether its source node is of type `animCurve`. -/
structure Conn where
  name : String
  isAnimCurve : Bool
deriving DecidableEq

/-- One keyframe on an animation curve, with the data queried by
`cmds.keyframe(.., timeChange=True)` and `cmds.keyTangent(.., in/outTangentType=True)`. -/
structure Key where
  time : Int
  inTangentType : String
  outTangentType : String
deriving DecidableEq

/-- An animation curve: its keys, in the order `cmds.keyframe` reports them
(Maya reports key times in ascending order). -/
structure AnimCurve where
  keys : List Key
deriving DecidableEq

/-- The host scene graph, as seen through the `cmds` calls the tool makes.
`getAttrMatrix node matrixType t` models `cmds.getAttr("node.matrixType", time=t)`;
it may raise (node deleted mid-operation, etc.), modelled by `Except`.  The
remaining queries are modelled as total: no claim depends on their failure.
`decomposeApi` is the Maya API `MTransformationMatrix` decomposition used by
`utils.decomposeMatrix` (matrix, rotateOrder, rotatePivot ↦ (pos, rot, scale));
it is host-provided numerics and is treated as an uninterpreted host function. -/
structure Scene where
  selection : List String
  currentTime : Int
  confirm : List String → Bool
  getAttrMatrix : String → String → Int → Except String Mat4
  rotateOrder : String → Int
  rotatePivot : String → Vec3
  locked : String → Bool
  inputConnections : String → List Conn
  curve : String → AnimCurve
  decomposeApi : Mat4 → Int → Vec3 → Vec3 × Vec3 × Vec3

instance {ε α : Type} [DecidableEq ε] [DecidableEq α] : DecidableEq (Except ε α) :=
  fun x y =>
    match x, y with
    | Except.ok a, Except.ok b =>
      if h : a = b then isTrue (by rw [h]) else isFalse (by intro hc; cases hc; exact h rfl)
    | Except.error a, Except.error b =>
      if h : a = b then isTrue (by rw [h]) else isFalse (by intro hc; cases hc; exact h rfl)
    | Except.ok _, Except.error _ => isFalse (by intro hc; cases hc)
    | Except.error _, Except.ok _ => isFalse (by intro hc; cases hc)

/-- The monad the commands run in: a trace of host mutations plus a possible
Python exception.  Ops emitted before an exception are kept. -/
structure HostM (α : Type) where
  ops : List Op
  res : Except String α
deriving DecidableEq

instance : Monad HostM where
  pure a := ⟨[], Except.ok a⟩
  bind x f :=
    match x.res with
    | Except.error msg => ⟨x.ops, Except.error msg⟩
    | Except.ok a => ⟨x.ops ++ (f a).ops, (f a).res⟩

/-- Run a host query: no ops are emitted, a failure becomes the exception. -/
def liftE {α : Type} (r : Except String α) : HostM α := ⟨[], r⟩

/-- Issue one host mutation. -/
def emit (op : Op) : HostM Unit := ⟨[op], Except.ok ()⟩

/-- A Python `for x in l:` loop over a finite list: runs the body on each
element in order, stopping at the first exception. -/
def forList {α : Type} : List α → (α → HostM Unit) → HostM Unit
  | [], _ => pure ()
  | x :: xs, f => f x >>= fun _ => forList xs f

/-- `utils.UndoChunkContext` used as `with UndoChunkContext():` —
`__enter__` opens the chunk, `__exit__` closes it on every exit path and
returns `None`, so an exception raised by the body still propagates. -/
def withUndoChunk (body : HostM Unit) : HostM Unit :=
  ⟨Op.undoOpen :: (body.ops ++ [Op.undoClose]), body.res⟩

/-- `commands.TANGENTS` (identical in `src/__init__.py`). -/
def TANGENTS : List String :=
  ["auto", "clamped", "fast",
   "flat", "linear", "plateau",
   "slow", "spline", "stepnext"]

/-- `utils.ATTRIBUTES`. -/
def ATTRIBUTES : List String := ["translate", "rotate", "scale"]

/-- `utils.CHANNELS`. -/
def CHANNELS : List String := ["X", "Y", "Z"]

/-- `cmds.listConnections(node, destination=False)`, optionally with
`type="animCurve"`: the names of the plug's incoming connections, filtered to
animation curves when `animCurveOnly` is set. -/
def listConnections (s : Scene) (node : String) (animCurveOnly : Bool) : List String :=
  ((s.inputConnections node).filter (fun c => !animCurveOnly || c.isAnimCurve)).map
    (fun c => c.name)

/-- `utils.getInvalidAttributes` (`src/scripts/anchorTransform/utils.py` lines
158-201; `src/utils.py` lines 138-181 is identical): per parent attribute,
if the compound plug has any incoming connection all three channels are
collected; otherwise each channel is collected when
`(not animInputs and allInputs) or locked`. -/
def getInvalidAttributes (s : Scene) (transform : String) : List String :=
  ATTRIBUTES.flatMap (fun attr =>
    let node := transform ++ "." ++ attr
    if !(listConnections s node false).isEmpty then
      CHANNELS.map (fun channel => node ++ channel)
    else
      (CHANNELS.filter (fun channel =>
        let node2 := node ++ channel
        let animInputs := listConnections s node2 true
        let allInputs := listConnections s node2 false
        (animInputs.isEmpty && !allInputs.isEmpty) || s.locked node2)).map
        (fun channel => node ++ channel))

/-- `utils.getMatrix` (`src/scripts/anchorTransform/utils.py` lines 207-226;
`src/utils.py` lines 185-206 differs only by a dead `rotatePivot` query).
Python truthiness is kept: `if not transform:` is true for `None` and for the
empty string (absent node, modelled as `""`), and `if not time:` is true for
`None` and for the number `0`. -/
def getMatrix (s : Scene) (transform : String) (time : Option Int)
    (matrixType : String) : Except String Mat4 :=
  if transform = "" then Except.ok 1
  else
    let t : Int :=
      match time with
      | none => s.currentTime
      | some v => if v = 0 then s.currentTime else v
    s.getAttrMatrix transform matrixType t

/-- `utils.getInTangent`: walk the curve's key times in reported order, skip
every `t <= time`, and return the in-tangent type of the first remaining key;
`"auto"` when the loop falls through. -/
def getInTangent (c : AnimCurve) (time : Int) : String :=
  match c.keys.find? (fun k => ! decide (k.time ≤ time)) with
  | some k => k.inTangentType
  | none => "auto"

/-- `utils.getOutTangent`: walk the curve's key times in reported order, skip
every `t >= time`, and return the out-tangent type of the first remaining key;
`"auto"` when the loop falls through. -/
def getOutTangent (c : AnimCurve) (time : Int) : String :=
  match c.keys.find? (fun k => ! decide (time ≤ k.time)) with
  | some k => k.outTangentType
  | none => "auto"

/-- The tangent-type selection of the channel loop (`commands.py` lines
119-152; identical in `src/__init__.py` lines 163-196): the dict starts as
linear/linear; `if animInputs and i == end:` inherits the out tangent,
`elif animInputs and i == start:` inherits the in tangent, each only when the
discovered type is in `TANGENTS`. -/
def keyTangents (s : Scene) (animInputs : List String) (i start e : Int) :
    String × String :=
  match animInputs with
  | [] => ("linear", "linear")
  | a :: _ =>
    if i = e then
      let tangent := getOutTangent (s.curve a) e
      if tangent ∈ TANGENTS then ("linear", tangent) else ("linear", "linear")
    else if i = start then
      let tangent := getInTangent (s.curve a) start
      if tangent ∈ TANGENTS then (tangent, "linear") else ("linear", "linear")
    else ("linear", "linear")

/-- `utils.applyEulerFilter` (`src/scripts/anchorTransform/utils.py` lines
331-356): collect the animation curves connected to the three rotate channels
and, when the list is non-empty, apply the euler filter to all of them in one
`cmds.filterCurve` call. -/
def applyEulerFilter (s : Scene) (transform : String) : HostM Unit :=
  let rotationCurves := CHANNELS.flatMap (fun channel =>
    listConnections s (transform ++ ".rotate" ++ channel) true)
  if !rotationCurves.isEmpty then emit (Op.filterCurve rotationCurves) else pure ()

/-- The per-frame matrix computation of the loop body (`commands.py` lines
88-105): sample the driver's world matrix and the target's parent-inverse
matrix at frame `i`, then
`differenceMatrix = driverInverseMatrix * driverMatrix` and
`localMatrix = differenceMatrix * anchorMatrix * inverseMatrix`. -/
def localMatrixAt (s : Scene) (transform driver : String)
    (driverInverseMatrix anchorMatrix : Mat4) (i : Int) : Except String Mat4 := do
  let driverMatrix ← getMatrix s driver (some i) "worldMatrix"
  let inverseMatrix ← getMatrix s transform (some i) "parentInverseMatrix"
  pure (driverInverseMatrix * driverMatrix * anchorMatrix * inverseMatrix)

/-- One iteration of the keying loop (`commands.py` lines 87-160): compute the
local matrix, decompose it with the rotation order and the (re-read) rotation
pivot, and for each of the 9 channels either skip it (invalid) or set a key at
frame `i` with the tangent types chosen by `keyTangents`. -/
def keyFrameBody (s : Scene) (transform driver : String) (rotOrder : Int)
    (driverInverseMatrix anchorMatrix : Mat4) (invalidAttributes : List String)
    (start e i : Int) : HostM Unit := do
  let localMatrix ← liftE
    (localMatrixAt s transform driver driverInverseMatrix anchorMatrix i)
  let rotPivot := s.rotatePivot transform
  let tv := s.decomposeApi localMatrix rotOrder rotPivot
  forList (List.zip ATTRIBUTES [tv.1, tv.2.1, tv.2.2]) (fun av =>
    forList (List.zip CHANNELS [av.2.1, av.2.2.1, av.2.2.2]) (fun cv =>
      let node := transform ++ "." ++ av.1 ++ cv.1
      if node ∈ invalidAttributes then
        pure ()
      else
        let animInputs := listConnections s node true
        let tangents := keyTangents s animInputs i start e
        emit (Op.setKey node i cv.2 tangents.1 tangents.2)))

/-- Python `range(start, end)`: the integers `start, start+1, …, end-1`. -/
def frameRange (start e : Int) : List Int :=
  (List.range (e - start).toNat).map (fun (k : Nat) => start + (k : Int))

/-- The body of `anchorTransform` inside the undo chunk, parameterised by the
frame list so both source variants share it (their bodies are textually
identical apart from the loop's upper bound): capture the rotation order, the
driver's world-inverse matrix at `start`, the target's world matrix at `start`
and the invalid-attribute list, iterate the keying loop, then apply the euler
filter. -/
def anchorLoopBody (s : Scene) (transform driver : String) (start e : Int)
    (frames : List Int) : HostM Unit := do
  let rotOrder := s.rotateOrder transform
  let driverInverseMatrix ← liftE (getMatrix s driver (some start) "worldInverseMatrix")
  let anchorMatrix ← liftE (getMatrix s transform (some start) "worldMatrix")
  let invalidAttributes := getInvalidAttributes s transform
  forList frames (fun i =>
    keyFrameBody s transform driver rotOrder driverInverseMatrix anchorMatrix
      invalidAttributes start e i)
  applyEulerFilter s transform

/-- `anchorTransform` of `src/scripts/anchorTransform/commands.py` (lines
53-163): the whole operation inside one undo chunk, keying loop over
`range(start, end)`. -/
def anchorTransform (s : Scene) (transform driver : String) (start e : Int) :
    HostM Unit :=
  withUndoChunk (anchorLoopBody s transform driver start e (frameRange start e))

/-- `anchorTransform` of `src/__init__.py` (lines 97-207): identical except the
keying loop runs over `range(start, end + 1)`. -/
def anchorTransformInit (s : Scene) (transform driver : String) (start e : Int) :
    HostM Unit :=
  withUndoChunk (anchorLoopBody s transform driver start e (frameRange start (e + 1)))

/-- `anchorSelection` (`commands.py` lines 19-50; identical in
`src/__init__.py` lines 64-95): take the selected transforms, drop the driver,
collect the invalid channels of all of them, ask for confirmation when any
exist (returning without mutation on decline), then anchor each transform in
turn.  The Python loop has no exception handler, so a raise inside
`anchorTransform` propagates out of the loop. -/
def anchorSelection (s : Scene) (driver : String) (start e : Int) : HostM Unit :=
  let transforms := s.selection.filter (fun t => !(t == driver))
  let invalidChannels := transforms.flatMap (fun t => getInvalidAttributes s t)
  if !invalidChannels.isEmpty && !s.confirm invalidChannels then
    pure ()
  else
    forList transforms (fun t => anchorTransform s t driver start e)

/-- Projection: is this op a `setKeyframe` call? -/
def Op.isSetKey : Op → Bool
  | Op.setKey _ _ _ _ _ => true
  | _ => false

/-- Projection: is this op a `filterCurve` call? -/
def Op.isFilterCurve : Op → Bool
  | Op.filterCurve _ => true
  | _ => false

/-- Projection: the frame a `setKeyframe` op keys at. -/
def Op.timeOf : Op → Option Int
  | Op.setKey _ t _ _ _ => some t
  | _ => none

/-- Projection: the out-tangent type of a `setKeyframe` op. -/
def Op.outTangentOf : Op → Option String
  | Op.setKey _ _ _ _ outT => some outT
  | _ => none

/-! ### Concrete scenes used as witnesses and counterexamples -/

/-- A benign scene: two clean transforms selected, every host query succeeds,
no connections, nothing locked, every sampled matrix is the identity. -/
def scBase : Scene where
  selection := ["A", "B"]
  currentTime := 100
  confirm := fun _ => true
  getAttrMatrix := fun _ _ _ => Except.ok 1
  rotateOrder := fun _ => 0
  rotatePivot := fun _ => (0, 0, 0)
  locked := fun _ => false
  inputConnections := fun _ => []
  curve := fun _ => ⟨[]⟩
  decomposeApi := fun _ _ _ => ((0, 0, 0), (0, 0, 0), (1, 1, 1))

/-- Like `scBase`, but every timed matrix query on node `"A"` raises
(models the node being deleted mid-operation). -/
def scFail : Scene :=
  { scBase with
    getAttrMatrix := fun n _ _ =>
      if n = "A" then Except.error "node A was deleted" else Except.ok 1 }

/-- A scene with two animation curves:
`crvA` has a single key at time 0 (so no key lies after time 5), and
`crvB` has keys at times 1 and 3 with out-tangent types `"spline"` and
`"flat"` (so the key nearest before time 10 is the one at time 3). -/
def scCurves : Scene :=
  { scBase with
    curve := fun name =>
      if name = "crvA" then ⟨[⟨0, "spline", "spline"⟩]⟩
      else if name = "crvB" then ⟨[⟨1, "x", "spline"⟩, ⟨3, "x", "flat"⟩]⟩
      else ⟨[]⟩ }

/-- A scene whose sampled matrices depend on the query time: the zero matrix
at time 0 and the identity at any other time; the current time is 5. -/
def scTime : Scene :=
  { scBase with
    currentTime := 5
    getAttrMatrix := fun _ _ tm => Except.ok (if tm = 0 then 0 else 1) }

/-- A scene where the plug `"T.rotateX"` has one incoming connection that is
not an animation curve, and `"T.scaleY"` is locked. -/
def scConn : Scene :=
  { scBase with
    inputConnections := fun p =>
      if p = "T.rotateX" then [⟨"constraint1", false⟩] else []
    locked := fun p => p = "T.scaleY" }

/-! ### Helper lemmas about the monad and the loops -/

theorem hostM_bind_def {α β : Type} (x : HostM α) (f : α → HostM β) :
    x >>= f =
      match x.res with
      | Except.error msg => ⟨x.ops, Except.error msg⟩
      | Except.ok a => ⟨x.ops ++ (f a).ops, (f a).res⟩ := rfl

theorem hostM_bind_ok {α β : Type} {x : HostM α} {a : α} (f : α → HostM β)
    (h : x.res = Except.ok a) :
    x >>= f = ⟨x.ops ++ (f a).ops, (f a).res⟩ := by
  rw [hostM_bind_def, h]

theorem hostM_bind_error {α β : Type} {x : HostM α} {msg : String} (f : α → HostM β)
    (h : x.res = Except.error msg) :
    x >>= f = ⟨x.ops, Except.error msg⟩ := by
  rw [hostM_bind_def, h]

theorem hostM_pure_def {α : Type} (a : α) :
    (pure a : HostM α) = ⟨[], Except.ok a⟩ := rfl

theorem liftE_ops {α : Type} (r : Except String α) : (liftE r).ops = [] := rfl

theorem emit_ops (op : Op) : (emit op).ops = [op] := rfl

theorem ops_of_bind_mem {α β : Type} {x : HostM α} {f : α → HostM β} {op : Op}
    (h : op ∈ (x >>= f).ops) :
    op ∈ x.ops ∨ ∃ a, x.res = Except.ok a ∧ op ∈ (f a).ops := by
  rw [hostM_bind_def] at h
  cases hres : x.res with
  | error msg => rw [hres] at h; exact Or.inl h
  | ok a =>
    rw [hres] at h
    rcases List.mem_append.mp h with h1 | h2
    · exact Or.inl h1
    · exact Or.inr ⟨a, rfl, h2⟩

theorem forList_nil {α : Type} (f : α → HostM Unit) :
    forList [] f = ⟨[], Except.ok ()⟩ := rfl

theorem forList_cons {α : Type} (x : α) (xs : List α) (f : α → HostM Unit) :
    forList (x :: xs) f = f x >>= fun _ => forList xs f := rfl

theorem mem_forList_ops {α : Type} {l : List α} {f : α → HostM Unit} {op : Op}
    (h : op ∈ (forList l f).ops) : ∃ x ∈ l, op ∈ (f x).ops := by
  induction l with
  | nil => simp [forList_nil] at h
  | cons x xs ih =>
    rw [forList_cons] at h
    rcases ops_of_bind_mem h with h1 | ⟨a, _, h2⟩
    · exact ⟨x, List.mem_cons_self x xs, h1⟩
    · rcases ih h2 with ⟨y, hy, hop⟩
      exact ⟨y, List.mem_cons_of_mem x hy, hop⟩

theorem forList_ok {α : Type} {l : List α} {f : α → HostM Unit}
    (h : ∀ x ∈ l, (f x).res = Except.ok ()) :
    forList l f = ⟨l.flatMap (fun x => (f x).ops), Except.ok ()⟩ := by
  induction l with
  | nil => simp [forList_nil]
  | cons x xs ih =>
    rw [forList_cons, hostM_bind_ok _ (h x (List.mem_cons_self x xs))]
    rw [ih (fun y hy => h y (List.mem_cons_of_mem x hy))]
    simp [List.flatMap_cons]

theorem forList_res_ok {α : Type} {l : List α} {f : α → HostM Unit}
    (h : ∀ x ∈ l, (f x).res = Except.ok ()) :
    (forList l f).res = Except.ok () := by
  rw [forList_ok h]

theorem mem_frameRange_iff {start e i : Int} :
    i ∈ frameRange start e ↔ start ≤ i ∧ i < e := by
  unfold frameRange
  simp only [List.mem_map, List.mem_range]
  constructor
  · rintro ⟨k, hk, rfl⟩; omega
  · rintro ⟨h1, h2⟩; exact ⟨(i - start).toNat, by omega, by omega⟩

theorem mem_frameRange {start e i : Int} (h : i ∈ frameRange start e) :
    start ≤ i ∧ i < e := mem_frameRange_iff.mp h

theorem keyTangents_snd_of_ne {s : Scene} {animInputs : List String}
    {i start e : Int} (h : i ≠ e) :
    (keyTangents s animInputs i start e).2 = "linear" := by
  unfold keyTangents
  cases animInputs with
  | nil => rfl
  | cons a rest =>
    simp only [if_neg h]
    by_cases hs : i = start
    · simp only [if_pos hs]
      by_cases ht : getInTangent (s.curve a) start ∈ TANGENTS <;> simp [ht]
    · simp [hs]

theorem keyFrameBody_ops_shape {s : Scene} {transform driver : String}
    {rotOrder : Int} {dInv anchor : Mat4} {invalid : List String}
    {start e i : Int} {op : Op}
    (h : op ∈ (keyFrameBody s transform driver rotOrder dInv anchor invalid start e i).ops) :
    ∃ node v, op = Op.setKey node i v
      (keyTangents s (listConnections s node true) i start e).1
      (keyTangents s (listConnections s node true) i start e).2 := by
  unfold keyFrameBody at h
  rcases ops_of_bind_mem h with h1 | ⟨lm, _, h2⟩
  · simp [liftE] at h1
  · rcases mem_forList_ops h2 with ⟨av, _, h3⟩
    rcases mem_forList_ops h3 with ⟨cv, _, h4⟩
    by_cases hinv : (transform ++ "." ++ av.1 ++ cv.1) ∈ invalid
    · simp only [if_pos hinv] at h4
      simp [hostM_pure_def] at h4
    · simp only [if_neg hinv] at h4
      simp only [emit] at h4
      rcases List.mem_singleton.mp h4 with rfl
      exact ⟨transform ++ "." ++ av.1 ++ cv.1, cv.2, rfl⟩

theorem keyFrameBody_res_ok {s : Scene} {transform driver : String}
    {rotOrder : Int} {dInv anchor : Mat4} {invalid : List String}
    {start e i : Int} {lm : Mat4}
    (h : localMatrixAt s transform driver dInv anchor i = Except.ok lm) :
    (keyFrameBody s transform driver rotOrder dInv anchor invalid start e i).res =
      Except.ok () := by
  unfold keyFrameBody
  rw [hostM_bind_ok _ (show (liftE (localMatrixAt s transform driver dInv anchor i)).res
        = Except.ok lm from h)]
  apply forList_res_ok
  intro av _
  apply forList_res_ok
  intro cv _
  by_cases hinv : (transform ++ "." ++ av.1 ++ cv.1) ∈ invalid
  · simp [if_pos hinv, hostM_pure_def]
  · simp [if_neg hinv, emit]

theorem applyEulerFilter_res_ok (s : Scene) (transform : String) :
    (applyEulerFilter s transform).res = Except.ok () := by
  unfold applyEulerFilter
  by_cases h : (CHANNELS.flatMap (fun channel =>
      listConnections s (transform ++ ".rotate" ++ channel) true)).isEmpty
  · simp [h, hostM_pure_def]
  · simp [h, emit]

theorem mem_applyEulerFilter_ops {s : Scene} {transform : String} {op : Op}
    (h : op ∈ (applyEulerFilter s transform).ops) :
    op = Op.filterCurve (CHANNELS.flatMap (fun channel =>
      listConnections s (transform ++ ".rotate" ++ channel) true)) := by
  unfold applyEulerFilter at h
  by_cases hc : (CHANNELS.flatMap (fun channel =>
      listConnections s (transform ++ ".rotate" ++ channel) true)).isEmpty
  · simp [hc, hostM_pure_def] at h
  · simp only [hc, Bool.not_false, if_pos] at h
    simpa [emit] using h

theorem liftE_bind_ok {α β : Type} {r : Except String α} {a : α} (k : α → HostM β)
    (h : r = Except.ok a) : (liftE r >>= k) = k a := by
  subst h; rfl

theorem getMatrix_ok (s : Scene) (n : String) (t : Option Int) (mt : String)
    (hok : ∀ nm mty tm, ∃ m, s.getAttrMatrix nm mty tm = Except.ok m) :
    ∃ m, getMatrix s n t mt = Except.ok m := by
  unfold getMatrix
  by_cases h : n = ""
  · exact ⟨1, by simp [h]⟩
  · simp only [if_neg h]
    exact hok n mt _

theorem localMatrixAt_ok (s : Scene) (transform driver : String)
    (dInv anchor : Mat4) (i : Int)
    (hok : ∀ nm mty tm, ∃ m, s.getAttrMatrix nm mty tm = Except.ok m) :
    ∃ m, localMatrixAt s transform driver dInv anchor i = Except.ok m := by
  obtain ⟨d, hd⟩ := getMatrix_ok s driver (some i) "worldMatrix" hok
  obtain ⟨p, hp⟩ := getMatrix_ok s transform (some i) "parentInverseMatrix" hok
  refine ⟨dInv * d * anchor * p, ?_⟩
  unfold localMatrixAt
  rw [hd, hp]
  rfl

theorem anchorLoopBody_trace (s : Scene) (transform driver : String) (start e : Int)
    (frames : List Int) (dInv anchor : Mat4)
    (h1 : getMatrix s driver (some start) "worldInverseMatrix" = Except.ok dInv)
    (h2 : getMatrix s transform (some start) "worldMatrix" = Except.ok anchor)
    (hok : ∀ nm mty tm, ∃ m, s.getAttrMatrix nm mty tm = Except.ok m) :
    anchorLoopBody s transform driver start e frames =
      ⟨(frames.flatMap (fun i =>
          (keyFrameBody s transform driver (s.rotateOrder transform) dInv anchor
            (getInvalidAttributes s transform) start e i).ops))
        ++ (applyEulerFilter s transform).ops,
       Except.ok ()⟩ := by
  unfold anchorLoopBody
  rw [liftE_bind_ok _ h1, liftE_bind_ok _ h2]
  have hbody : ∀ i ∈ frames,
      (keyFrameBody s transform driver (s.rotateOrder transform) dInv anchor
        (getInvalidAttributes s transform) start e i).res = Except.ok () := by
    intro i _
    obtain ⟨m, hm⟩ := localMatrixAt_ok s transform driver dInv anchor i hok
    exact keyFrameBody_res_ok hm
  rw [hostM_bind_ok _ (forList_res_ok hbody), forList_ok hbody]
  rw [applyEulerFilter_res_ok]

theorem string_append_right_cancel {s t u : String} (h : s ++ t = s ++ u) : t = u := by
  have hd := congrArg String.data h
  rw [String.data_append, String.data_append] at hd
  have hc := List.append_cancel_left hd
  cases t; cases u
  simp only [] at hc
  rw [hc]

theorem string_append_right_cancel_iff {s t u : String} : s ++ t = s ++ u ↔ t = u :=
  ⟨string_append_right_cancel, fun h => by rw [h]⟩

theorem plug_eq_iff (t a c a2 c2 : String) :
    t ++ "." ++ a ++ c = t ++ "." ++ a2 ++ c2 ↔ a ++ c = a2 ++ c2 := by
  rw [String.append_assoc (t ++ ".") a c, String.append_assoc (t ++ ".") a2 c2]
  exact string_append_right_cancel_iff

theorem find?_after {l : List Key} {time : Int}
    (hs : l.Pairwise (fun k1 k2 => k1.time < k2.time)) :
    (∃ k, l.find? (fun k => ! decide (k.time ≤ time)) = some k ∧ k ∈ l ∧
        time < k.time ∧ ∀ k2 ∈ l, time < k2.time → k.time ≤ k2.time)
    ∨ (l.find? (fun k => ! decide (k.time ≤ time)) = none ∧ ∀ k ∈ l, k.time ≤ time) := by
  induction l with
  | nil => right; simp
  | cons h t ih =>
    obtain ⟨hrel, ht⟩ := List.pairwise_cons.mp hs
    by_cases hh : h.time ≤ time
    · have hf : (h :: t).find? (fun k => ! decide (k.time ≤ time)) =
          t.find? (fun k => ! decide (k.time ≤ time)) :=
        List.find?_cons_of_neg _ (by simp [hh])
      rcases ih ht with ⟨k, hk1, hk2, hk3, hk4⟩ | ⟨h1, h2⟩
      · left
        refine ⟨k, by rw [hf]; exact hk1, List.mem_cons_of_mem _ hk2, hk3, ?_⟩
        intro k2 hk2m hlt
        rcases List.mem_cons.mp hk2m with rfl | hmem
        · omega
        · exact hk4 k2 hmem hlt
      · right
        refine ⟨by rw [hf]; exact h1, ?_⟩
        intro k hkm
        rcases List.mem_cons.mp hkm with rfl | hmem
        · exact hh
        · exact h2 k hmem
    · left
      refine ⟨h, List.find?_cons_of_pos _ (by simp [hh]), List.mem_cons_self h t,
        by omega, ?_⟩
      intro k2 hk2m _
      rcases List.mem_cons.mp hk2m with rfl | hmem
      · exact le_refl _
      · exact le_of_lt (hrel k2 hmem)

theorem find?_before {l : List Key} {time : Int}
    (hs : l.Pairwise (fun k1 k2 => k1.time < k2.time)) :
    (∃ k, l.find? (fun k => ! decide (time ≤ k.time)) = some k ∧ k ∈ l ∧
        k.time < time ∧ ∀ k2 ∈ l, k2.time < time → k.time ≤ k2.time)
    ∨ (l.find? (fun k => ! decide (time ≤ k.time)) = none ∧ ∀ k ∈ l, time ≤ k.time) := by
  induction l with
  | nil => right; simp
  | cons h t ih =>
    obtain ⟨hrel, ht⟩ := List.pairwise_cons.mp hs
    by_cases hh : time ≤ h.time
    · have hf : (h :: t).find? (fun k => ! decide (time ≤ k.time)) =
          t.find? (fun k => ! decide (time ≤ k.time)) :=
        List.find?_cons_of_neg _ (by simp [hh])
      rcases ih ht with ⟨k, hk1, hk2, hk3, hk4⟩ | ⟨h1, h2⟩
      · left
        refine ⟨k, by rw [hf]; exact hk1, List.mem_cons_of_mem _ hk2, hk3, ?_⟩
        intro k2 hk2m hlt
        rcases List.mem_cons.mp hk2m with rfl | hmem
        · omega
        · exact hk4 k2 hmem hlt
      · right
        refine ⟨by rw [hf]; exact h1, ?_⟩
        intro k hkm
        rcases List.mem_cons.mp hkm with rfl | hmem
        · exact hh
        · exact h2 k hmem
    · left
      refine ⟨h, List.find?_cons_of_pos _ (by simp [hh]), List.mem_cons_self h t,
        by omega, ?_⟩
      intro k2 hk2m _
      rcases List.mem_cons.mp hk2m with rfl | hmem
      · exact le_refl _
      · exact le_of_lt (hrel k2 hmem)

theorem listConnections_false_eq (s : Scene) (p : String) :
    listConnections s p false = (s.inputConnections p).map Conn.name := by
  unfold listConnections
  simp

theorem mem_getInvalidAttributes_iff (s : Scene) (t a c : String)
    (ha : a ∈ ATTRIBUTES) (hc : c ∈ CHANNELS)
    (hdiff : ∀ a2 ∈ ATTRIBUTES, a2 ≠ a → ∀ c2 ∈ CHANNELS, a ++ c ≠ a2 ++ c2) :
    (t ++ "." ++ a ++ c) ∈ getInvalidAttributes s t ↔
      (¬(listConnections s (t ++ "." ++ a) false).isEmpty = true
       ∨ ((listConnections s (t ++ "." ++ a ++ c) true).isEmpty = true ∧
          ¬(listConnections s (t ++ "." ++ a ++ c) false).isEmpty = true)
       ∨ s.locked (t ++ "." ++ a ++ c) = true) := by
  constructor
  · intro hm
    unfold getInvalidAttributes at hm
    rcases List.mem_flatMap.mp hm with ⟨a2, ha2, hin⟩
    dsimp only at hin
    by_cases heq : a2 = a
    · subst heq
      by_cases hpar : (listConnections s (t ++ "." ++ a2) false).isEmpty = true
      · simp only [hpar, Bool.not_true, if_neg] at hin
        rcases List.mem_map.mp hin with ⟨c2, hc2f, heqs⟩
        obtain ⟨hc2, hq⟩ := List.mem_filter.mp hc2f
        have hcc : c2 = c := string_append_right_cancel heqs
        subst hcc
        simp only [Bool.or_eq_true, Bool.and_eq_true, Bool.not_eq_true'] at hq
        rcases hq with ⟨hq1, hq2⟩ | hq3
        · exact Or.inr (Or.inl ⟨hq1, by simp [hq2]⟩)
        · exact Or.inr (Or.inr hq3)
      · exact Or.inl hpar
    · exfalso
      by_cases hpar : (listConnections s (t ++ "." ++ a2) false).isEmpty = true
      · simp only [hpar, Bool.not_true, if_neg] at hin
        rcases List.mem_map.mp hin with ⟨c2, hc2f, heqs⟩
        obtain ⟨hc2, _⟩ := List.mem_filter.mp hc2f
        exact hdiff a2 ha2 heq c2 hc2 ((plug_eq_iff t a c a2 c2).mp heqs.symm)
      · simp only [Bool.not_eq_true] at hpar
        simp only [hpar, Bool.not_false, if_pos] at hin
        rcases List.mem_map.mp hin with ⟨c2, hc2, heqs⟩
        exact hdiff a2 ha2 heq c2 hc2 ((plug_eq_iff t a c a2 c2).mp heqs.symm)
  · intro hrhs
    unfold getInvalidAttributes
    apply List.mem_flatMap.mpr
    refine ⟨a, ha, ?_⟩
    dsimp only
    by_cases hpar : (listConnections s (t ++ "." ++ a) false).isEmpty = true
    · simp only [hpar, Bool.not_true, if_neg]
      rcases hrhs with h1 | ⟨h2, h3⟩ | h4
      · exact absurd hpar h1
      · refine List.mem_map.mpr ⟨c, List.mem_filter.mpr ⟨hc, ?_⟩, rfl⟩
        simp only [Bool.not_eq_true] at h3
        simp [h2, h3]
      · refine List.mem_map.mpr ⟨c, List.mem_filter.mpr ⟨hc, ?_⟩, rfl⟩
        simp [h4]
    · simp only [Bool.not_eq_true] at hpar
      simp only [hpar, Bool.not_false, if_pos]
      exact List.mem_map.mpr ⟨c, hc, rfl⟩

theorem mem_anchorLoopBody_ops {s : Scene} {transform driver : String}
    {start e : Int} {frames : List Int} {op : Op}
    (h : op ∈ (anchorLoopBody s transform driver start e frames).ops) :
    (∃ dInv anchor, ∃ i ∈ frames,
        op ∈ (keyFrameBody s transform driver (s.rotateOrder transform) dInv anchor
          (getInvalidAttributes s transform) start e i).ops)
    ∨ op ∈ (applyEulerFilter s transform).ops := by
  unfold anchorLoopBody at h
  rcases ops_of_bind_mem h with h1 | ⟨dInv, _, h2⟩
  · simp [liftE] at h1
  · rcases ops_of_bind_mem h2 with h3 | ⟨anchor, _, h4⟩
    · simp [liftE] at h3
    · rcases ops_of_bind_mem h4 with h5 | ⟨_, _, h6⟩
      · rcases mem_forList_ops h5 with ⟨i, hi, hop⟩
        exact Or.inl ⟨dInv, anchor, i, hi, hop⟩
      · exact Or.inr h6

/-- Claim C1: the spec requires the keying loop of `anchorTransform` to visit
every integer frame from `start` to `end` inclusive, issuing a set-key at
frame `end`.  The `commands.py` variant loops `range(start, end)` and never
keys frame `end` (its own `i == end` tangent branch shows inclusive iteration
was intended, and the `src/__init__.py` variant indeed uses
`range(start, end + 1)`): at `start = 1`, `end = 3`, on a clean scene, the
`commands.py` variant keys frames 1 and 2 but issues no operation at frame 3,
while the `src/__init__.py` variant does key frame 3. -/
theorem c1_commands_loop_misses_end_frame :
    (∀ op ∈ (anchorTransform scBase "A" "" 1 3).ops, op.timeOf ≠ some 3)
    ∧ (∃ op ∈ (anchorTransformInit scBase "A" "" 1 3).ops,
        op.isSetKey = true ∧ op.timeOf = some 3)
    ∧ (∃ op ∈ (anchorTransform scBase "A" "" 1 3).ops,
        op.isSetKey = true ∧ op.timeOf = some 2) :=
  ⟨by decide, by decide, by decide⟩

/-- Claim C10: in the `commands.py` variant, for `start < end` the loop
variable never reaches `end`, so the `i == end` out-tangent-inheritance branch
is dead and every inserted key carries the linear default out-tangent. -/
theorem c10_out_tangent_branch_dead (s : Scene) (transform driver : String)
    (start e : Int) (h : start < e) :
    (∀ i ∈ frameRange start e, i ≠ e)
    ∧ (∀ op ∈ (anchorTransform s transform driver start e).ops,
        op.isSetKey = true → op.outTangentOf = some "linear") := by
  constructor
  · intro i hi
    have := mem_frameRange hi
    omega
  · intro op hop hsk
    unfold anchorTransform withUndoChunk at hop
    rcases List.mem_cons.mp hop with rfl | hop2
    · simp [Op.isSetKey] at hsk
    rcases List.mem_append.mp hop2 with hbody | hclose
    · rcases mem_anchorLoopBody_ops hbody with ⟨dInv, anchor, i, hi, hk⟩ | he
      · rcases keyFrameBody_ops_shape hk with ⟨node, v, rfl⟩
        have hne : i ≠ e := by have := mem_frameRange hi; omega
        simp [Op.outTangentOf, keyTangents_snd_of_ne hne]
      · rw [mem_applyEulerFilter_ops he] at hsk
        simp [Op.isSetKey] at hsk
    · rcases List.mem_singleton.mp hclose with rfl
      simp [Op.isSetKey] at hsk

theorem c10_witness :
    (1 : Int) < 3
    ∧ ((∀ i ∈ frameRange 1 3, i ≠ 3)
       ∧ (∀ op ∈ (anchorTransform scBase "A" "" 1 3).ops,
           op.isSetKey = true → op.outTangentOf = some "linear")) :=
  ⟨by decide, c10_out_tangent_branch_dead scBase "A" "" 1 3 (by decide)⟩

/-- Claim C9: every mutation of one `anchorTransform` call sits between a
single undo-chunk open and its matching close, and the close is always
emitted on exit — also when a host query raises mid-loop (the statement is
unconditional in the scene, so it covers every failure pattern). -/
theorem c9_undo_chunk_always_closed (s : Scene) (transform driver : String)
    (start e : Int) :
    ∃ body, (anchorTransform s transform driver start e).ops =
        Op.undoOpen :: (body ++ [Op.undoClose])
      ∧ ∀ op ∈ body, op ≠ Op.undoOpen ∧ op ≠ Op.undoClose := by
  refine ⟨(anchorLoopBody s transform driver start e (frameRange start e)).ops, rfl, ?_⟩
  intro op hop
  rcases mem_anchorLoopBody_ops hop with ⟨dInv, anchor, i, _, hk⟩ | he
  · rcases keyFrameBody_ops_shape hk with ⟨node, v, rfl⟩
    exact ⟨by simp, by simp⟩
  · rw [mem_applyEulerFilter_ops he]
    exact ⟨by simp, by simp⟩

/-- Claim C2: after the keying loop, `anchorTransform` always runs the euler
post-process: the trace of every successfully completing invocation ends (just
before the undo-chunk close) with the ops of `applyEulerFilter`, which gathers
the animation curves connected to the three rotate channels and issues a
single euler `filterCurve` over all of them together when any exist; no
`filterCurve` op is ever issued by the keying loop itself. -/
theorem c2_euler_filter_postprocess (s : Scene) (transform driver : String)
    (start e : Int)
    (hok : ∀ nm mty tm, ∃ m, s.getAttrMatrix nm mty tm = Except.ok m) :
    ∃ keyOps, (anchorTransform s transform driver start e).ops =
        Op.undoOpen :: (keyOps ++ (applyEulerFilter s transform).ops ++ [Op.undoClose])
      ∧ (∀ op ∈ keyOps, op.isFilterCurve = false)
      ∧ (applyEulerFilter s transform).ops =
          (if (CHANNELS.flatMap (fun channel =>
                listConnections s (transform ++ ".rotate" ++ channel) true)).isEmpty
           then []
           else [Op.filterCurve (CHANNELS.flatMap (fun channel =>
                listConnections s (transform ++ ".rotate" ++ channel) true))]) := by
  obtain ⟨dInv, h1⟩ := getMatrix_ok s driver (some start) "worldInverseMatrix" hok
  obtain ⟨anchor, h2⟩ := getMatrix_ok s transform (some start) "worldMatrix" hok
  refine ⟨(frameRange start e).flatMap (fun i =>
      (keyFrameBody s transform driver (s.rotateOrder transform) dInv anchor
        (getInvalidAttributes s transform) start e i).ops), ?_, ?_, ?_⟩
  · unfold anchorTransform withUndoChunk
    rw [anchorLoopBody_trace s transform driver start e _ dInv anchor h1 h2 hok]
  · intro op hop
    rcases List.mem_flatMap.mp hop with ⟨i, _, hk⟩
    rcases keyFrameBody_ops_shape hk with ⟨node, v, rfl⟩
    rfl
  · unfold applyEulerFilter
    by_cases hemp : (CHANNELS.flatMap (fun channel =>
        listConnections s (transform ++ ".rotate" ++ channel) true)).isEmpty
    · simp [hemp, hostM_pure_def]
    · simp [hemp, emit]

theorem c2_witness :
    (∀ nm mty tm, ∃ m, scBase.getAttrMatrix nm mty tm = Except.ok m)
    ∧ ∃ keyOps, (anchorTransform scBase "A" "" 1 3).ops =
        Op.undoOpen :: (keyOps ++ (applyEulerFilter scBase "A").ops ++ [Op.undoClose])
      ∧ (∀ op ∈ keyOps, op.isFilterCurve = false)
      ∧ (applyEulerFilter scBase "A").ops =
          (if (CHANNELS.flatMap (fun channel =>
                listConnections scBase ("A" ++ ".rotate" ++ channel) true)).isEmpty
           then []
           else [Op.filterCurve (CHANNELS.flatMap (fun channel =>
                listConnections scBase ("A" ++ ".rotate" ++ channel) true))]) :=
  ⟨fun nm mty tm => ⟨1, rfl⟩,
   c2_euler_filter_postprocess scBase "A" "" 1 3 (fun nm mty tm => ⟨1, rfl⟩)⟩

/-- Claim C8: the anchor reference — the driver's world-inverse matrix and the
target's world matrix, both sampled at `start` — is captured once, before the
loop; on a successfully completing run the whole trace factors through that
one captured pair: the ops of every frame `i` are those of `keyFrameBody`
applied to the same `dInv` and `anchor` fixed by the two start-frame samples,
never to re-sampled values. -/
theorem c8_anchor_captured_once (s : Scene) (transform driver : String)
    (start e : Int) (dInv anchor : Mat4)
    (h1 : getMatrix s driver (some start) "worldInverseMatrix" = Except.ok dInv)
    (h2 : getMatrix s transform (some start) "worldMatrix" = Except.ok anchor)
    (hok : ∀ nm mty tm, ∃ m, s.getAttrMatrix nm mty tm = Except.ok m) :
    anchorTransform s transform driver start e =
      ⟨Op.undoOpen ::
        (((frameRange start e).flatMap (fun i =>
            (keyFrameBody s transform driver (s.rotateOrder transform) dInv anchor
              (getInvalidAttributes s transform) start e i).ops))
          ++ (applyEulerFilter s transform).ops ++ [Op.undoClose]),
       Except.ok ()⟩ := by
  unfold anchorTransform withUndoChunk
  rw [anchorLoopBody_trace s transform driver start e _ dInv anchor h1 h2 hok]

theorem c8_witness :
    getMatrix scBase "" (some 1) "worldInverseMatrix" = Except.ok 1
    ∧ getMatrix scBase "A" (some 1) "worldMatrix" = Except.ok 1
    ∧ (∀ nm mty tm, ∃ m, scBase.getAttrMatrix nm mty tm = Except.ok m)
    ∧ anchorTransform scBase "A" "" 1 3 =
      ⟨Op.undoOpen ::
        (((frameRange 1 3).flatMap (fun i =>
            (keyFrameBody scBase "A" "" (scBase.rotateOrder "A") 1 1
              (getInvalidAttributes scBase "A") 1 3 i).ops))
          ++ (applyEulerFilter scBase "A").ops ++ [Op.undoClose]),
       Except.ok ()⟩ :=
  ⟨rfl, rfl, fun nm mty tm => ⟨1, rfl⟩,
   c8_anchor_captured_once scBase "A" "" 1 3 1 1 rfl rfl (fun nm mty tm => ⟨1, rfl⟩)⟩

/-- Claim C6: when the driver's world matrix is the same matrix `W` at every
sampled time (a static driver) and its start-frame world-inverse sample
`Winv` really is its inverse (`Winv * W = 1`, the scene-graph coherence of
`worldInverseMatrix`), the per-frame local matrix of the driver case equals
the local matrix of the no-driver case at every frame — and with no driver
both driver samples are the identity matrix. -/
theorem c6_static_driver_matches_no_driver (s : Scene) (transform driver : String)
    (start i : Int) (W Winv anchor : Mat4)
    (hinv : getMatrix s driver (some start) "worldInverseMatrix" = Except.ok Winv)
    (hstatic : ∀ tm : Int, getMatrix s driver (some tm) "worldMatrix" = Except.ok W)
    (hcoh : Winv * W = 1) :
    getMatrix s "" (some start) "worldInverseMatrix" = Except.ok 1
    ∧ getMatrix s "" (some i) "worldMatrix" = Except.ok 1
    ∧ localMatrixAt s transform driver Winv anchor i =
        localMatrixAt s transform "" 1 anchor i := by
  refine ⟨rfl, rfl, ?_⟩
  unfold localMatrixAt
  rw [hstatic i]
  have h0 : getMatrix s "" (some i) "worldMatrix" = Except.ok 1 := rfl
  rw [h0]
  rw [show (Except.ok W : Except String Mat4) = pure W from rfl]
  rw [show (Except.ok (1 : Mat4) : Except String Mat4) = pure 1 from rfl]
  rw [pure_bind, pure_bind]
  simp only [hcoh, one_mul]

theorem c6_witness :
    getMatrix scBase "D" (some 2) "worldInverseMatrix" = Except.ok 1
    ∧ (∀ tm : Int, getMatrix scBase "D" (some tm) "worldMatrix" = Except.ok 1)
    ∧ (1 : Mat4) * 1 = 1
    ∧ (getMatrix scBase "" (some 2) "worldInverseMatrix" = Except.ok 1
       ∧ getMatrix scBase "" (some 7) "worldMatrix" = Except.ok 1
       ∧ localMatrixAt scBase "T" "D" 1 1 7 = localMatrixAt scBase "T" "" 1 1 7) :=
  ⟨rfl, fun tm => rfl, one_mul 1,
   c6_static_driver_matches_no_driver scBase "T" "D" 2 7 1 1 1 rfl (fun tm => rfl)
     (one_mul 1)⟩

/-- Claim C5, counterexample: `getMatrix` does not evaluate at "exactly the
given time" for every specified time — Python `if not time:` treats the
specified time 0 as falsy.  In `scTime` the host value at time 0 is the zero
matrix and the current time is 5 (where the host value is the identity), yet
`getMatrix` queried at time 0 returns the identity, the value at the current
time. -/
theorem c5_counterexample :
    getMatrix scTime "node" (some 0) "worldMatrix" = Except.ok 1
    ∧ scTime.getAttrMatrix "node" "worldMatrix" 0 = Except.ok 0
    ∧ (Except.ok (1 : Mat4) : Except String Mat4) ≠ Except.ok 0 := by
  refine ⟨rfl, rfl, fun h => ?_⟩
  have h1 : (1 : Mat4) = 0 := by injection h
  exact one_ne_zero h1

/-- Claim C5, amended: `getMatrix` returns the identity whenever the node is
absent, for every time and matrix kind; for a present node it evaluates the
host at exactly the given time, falling back to the host's current time when
the time is unspecified or when the given time equals 0 (both are falsy to
the `if not time:` test). -/
theorem c5_amended (s : Scene) (n : String) (tm : Int) (mt : String)
    (t2 : Option Int) (hn : n ≠ "") :
    getMatrix s "" t2 mt = Except.ok 1
    ∧ getMatrix s n none mt = s.getAttrMatrix n mt s.currentTime
    ∧ getMatrix s n (some tm) mt =
        (if tm = 0 then s.getAttrMatrix n mt s.currentTime
         else s.getAttrMatrix n mt tm) := by
  refine ⟨?_, ?_, ?_⟩ <;> unfold getMatrix
  · rw [if_pos rfl]
  · rw [if_neg hn]
  · rw [if_neg hn]
    by_cases h0 : tm = 0 <;> simp [h0]

theorem c5_witness :
    ("node" : String) ≠ ""
    ∧ (getMatrix scTime "" (some 9) "worldMatrix" = Except.ok 1
       ∧ getMatrix scTime "node" none "worldMatrix" =
           scTime.getAttrMatrix "node" "worldMatrix" scTime.currentTime
       ∧ getMatrix scTime "node" (some 0) "worldMatrix" =
           (if (0 : Int) = 0 then scTime.getAttrMatrix "node" "worldMatrix" scTime.currentTime
            else scTime.getAttrMatrix "node" "worldMatrix" 0)) :=
  ⟨by decide, c5_amended scTime "node" 0 "worldMatrix" (some 9) (by decide)⟩

theorem parent_conn_iff (s : Scene) (p : String) :
    (¬(listConnections s p false).isEmpty = true) ↔ s.inputConnections p ≠ [] := by
  rw [listConnections_false_eq, List.isEmpty_iff, List.map_eq_nil_iff]

theorem channel_cond_iff (s : Scene) (p : String)
    (hone : (s.inputConnections p).length ≤ 1) :
    ((listConnections s p true).isEmpty = true ∧
      ¬(listConnections s p false).isEmpty = true) ↔
      ∃ conn ∈ s.inputConnections p, conn.isAnimCurve = false := by
  unfold listConnections
  rcases hl : s.inputConnections p with _ | ⟨conn, rest⟩
  · simp
  · have hr : rest = [] := by
      rw [hl] at hone
      simp only [List.length_cons] at hone
      exact List.length_eq_zero.mp (by omega)
    subst hr
    cases hcurve : conn.isAnimCurve <;> simp [hcurve]

/-- Claim C7: `getInvalidAttributes` marks a channel invalid exactly when its
parent compound plug has an incoming connection, or the channel is locked, or
the channel's incoming connection is not an animation curve; a channel whose
only incoming connection is an animation curve (and which is not locked, with
a clean parent) is not in the list.  The hypothesis `hone` is the host
invariant that a destination plug accepts at most one incoming connection. -/
theorem c7_invalid_channel_characterization (s : Scene) (t a c : String)
    (ha : a ∈ ATTRIBUTES) (hc : c ∈ CHANNELS)
    (hone : ∀ p : String, (s.inputConnections p).length ≤ 1) :
    (t ++ "." ++ a ++ c) ∈ getInvalidAttributes s t ↔
      (s.inputConnections (t ++ "." ++ a) ≠ []
       ∨ s.locked (t ++ "." ++ a ++ c) = true
       ∨ ∃ conn ∈ s.inputConnections (t ++ "." ++ a ++ c),
           conn.isAnimCurve = false) := by
  have hdiff : ∀ a2 ∈ ATTRIBUTES, a2 ≠ a → ∀ c2 ∈ CHANNELS, a ++ c ≠ a2 ++ c2 := by
    simp only [ATTRIBUTES, CHANNELS, List.mem_cons, List.not_mem_nil, or_false] at ha hc ⊢
    rcases ha with rfl | rfl | rfl <;> rcases hc with rfl | rfl | rfl <;>
      (intro a2 ha2 hne c2 hc2
       rcases ha2 with rfl | rfl | rfl <;> rcases hc2 with rfl | rfl | rfl <;>
         first
           | exact absurd rfl hne
           | decide)
  rw [mem_getInvalidAttributes_iff s t a c ha hc hdiff,
      parent_conn_iff, channel_cond_iff s _ (hone _)]
  exact or_congr_right or_comm

theorem c7_witness :
    ("rotate" ∈ ATTRIBUTES)
    ∧ ("X" ∈ CHANNELS)
    ∧ (∀ p : String, (scConn.inputConnections p).length ≤ 1)
    ∧ (("T" ++ "." ++ "rotate" ++ "X") ∈ getInvalidAttributes scConn "T" ↔
        (scConn.inputConnections ("T" ++ "." ++ "rotate") ≠ []
         ∨ scConn.locked ("T" ++ "." ++ "rotate" ++ "X") = true
         ∨ ∃ conn ∈ scConn.inputConnections ("T" ++ "." ++ "rotate" ++ "X"),
             conn.isAnimCurve = false)) := by
  have hone : ∀ p : String, (scConn.inputConnections p).length ≤ 1 := by
    intro p
    by_cases h : p = "T.rotateX" <;> simp [scConn, h]
  exact ⟨by decide, by decide, hone,
    c7_invalid_channel_characterization scConn "T" "rotate" "X" (by decide) (by decide)
      hone⟩

/-- Claim C3, counterexample: the claim says a key inserted at `start` on a
channel with an existing curve keeps the linear default when the curve has no
key strictly after `start`, and that the out-tangent at `end` is inherited
from the curve's nearest key strictly before `end`.  Both fail on the code:
`crvA` has its only key at time 0, yet the inserted in-tangent at `start = 5`
is the fallback `"auto"` (which is in the recognized set), not `"linear"`; and
`crvB` has keys at times 1 and 3, the nearest one before `end = 10` carrying
out-tangent `"flat"`, yet the code inherits `"spline"` from the earliest key
(time 1). -/
theorem c3_counterexample :
    ((∀ k ∈ (scCurves.curve "crvA").keys, k.time ≤ 5)
      ∧ (keyTangents scCurves ["crvA"] 5 5 10).1 = "auto"
      ∧ ("auto" : String) ≠ "linear")
    ∧ ((∃ k ∈ (scCurves.curve "crvB").keys, k.time = 3 ∧ k.outTangentType = "flat"
          ∧ ∀ k2 ∈ (scCurves.curve "crvB").keys, k2.time < 10 → k2.time ≤ 3)
      ∧ ("flat" : String) ∈ TANGENTS
      ∧ (keyTangents scCurves ["crvB"] 10 0 10).2 = "spline"
      ∧ ("spline" : String) ≠ "flat") :=
  ⟨by decide, by decide⟩

/-- Claim C3, amended: on a channel with an animation-curve connection
(curve keys in ascending time order), the key inserted at `frame == start`
inherits its in-tangent from the curve's nearest key strictly after `start`
when one exists (falling back to linear only when that key's type is outside
`TANGENTS`), and becomes `"auto"` — not linear — when no such key exists;
the key inserted at `frame == end` inherits its out-tangent from the curve's
earliest key strictly before `end` (not the nearest), with the same
out-of-set fallback to linear and the same `"auto"` fallback when no key lies
before `end`; the other tangent of each pair stays linear. -/
theorem c3_amended (s : Scene) (a : String) (rest : List String) (start e : Int)
    (hs : ((s.curve a).keys).Pairwise (fun k1 k2 => k1.time < k2.time))
    (hne : start ≠ e) :
    (keyTangents s (a :: rest) start start e).2 = "linear"
    ∧ (keyTangents s (a :: rest) e start e).1 = "linear"
    ∧ ((∃ k ∈ (s.curve a).keys, start < k.time
          ∧ (∀ k2 ∈ (s.curve a).keys, start < k2.time → k.time ≤ k2.time)
          ∧ (keyTangents s (a :: rest) start start e).1 =
              (if k.inTangentType ∈ TANGENTS then k.inTangentType else "linear"))
       ∨ ((∀ k ∈ (s.curve a).keys, k.time ≤ start)
          ∧ (keyTangents s (a :: rest) start start e).1 = "auto"))
    ∧ ((∃ k ∈ (s.curve a).keys, k.time < e
          ∧ (∀ k2 ∈ (s.curve a).keys, k2.time < e → k.time ≤ k2.time)
          ∧ (keyTangents s (a :: rest) e start e).2 =
              (if k.outTangentType ∈ TANGENTS then k.outTangentType else "linear"))
       ∨ ((∀ k ∈ (s.curve a).keys, e ≤ k.time)
          ∧ (keyTangents s (a :: rest) e start e).2 = "auto")) := by
  have hkt_start : keyTangents s (a :: rest) start start e =
      (if getInTangent (s.curve a) start ∈ TANGENTS
       then (getInTangent (s.curve a) start, "linear") else ("linear", "linear")) := by
    simp [keyTangents, hne]
  have hkt_e : keyTangents s (a :: rest) e start e =
      (if getOutTangent (s.curve a) e ∈ TANGENTS
       then ("linear", getOutTangent (s.curve a) e) else ("linear", "linear")) := by
    simp [keyTangents]
  refine ⟨?_, ?_, ?_, ?_⟩
  · rw [hkt_start]
    by_cases h : getInTangent (s.curve a) start ∈ TANGENTS <;> simp [h]
  · rw [hkt_e]
    by_cases h : getOutTangent (s.curve a) e ∈ TANGENTS <;> simp [h]
  · rcases @find?_after (s.curve a).keys start hs with ⟨k, hf, hm, hgt, hmin⟩ | ⟨hf, hall⟩
    · left
      have hin : getInTangent (s.curve a) start = k.inTangentType := by
        unfold getInTangent
        rw [hf]
      refine ⟨k, hm, hgt, hmin, ?_⟩
      rw [hkt_start, hin]
      by_cases h : k.inTangentType ∈ TANGENTS <;> simp [h]
    · right
      have hin : getInTangent (s.curve a) start = "auto" := by
        unfold getInTangent
        rw [hf]
      refine ⟨hall, ?_⟩
      rw [hkt_start, hin]
      simp [TANGENTS]
  · rcases @find?_before (s.curve a).keys e hs with ⟨k, hf, hm, hlt, hmin⟩ | ⟨hf, hall⟩
    · left
      have hout : getOutTangent (s.curve a) e = k.outTangentType := by
        unfold getOutTangent
        rw [hf]
      refine ⟨k, hm, hlt, hmin, ?_⟩
      rw [hkt_e, hout]
      by_cases h : k.outTangentType ∈ TANGENTS <;> simp [h]
    · right
      have hout : getOutTangent (s.curve a) e = "auto" := by
        unfold getOutTangent
        rw [hf]
      refine ⟨hall, ?_⟩
      rw [hkt_e, hout]
      simp [TANGENTS]

theorem c3_witness :
    (((scCurves.curve "crvB").keys).Pairwise (fun k1 k2 => k1.time < k2.time))
    ∧ ((5 : Int) ≠ 10)
    ∧ ((keyTangents scCurves ["crvB"] 5 5 10).2 = "linear"
       ∧ (keyTangents scCurves ["crvB"] 10 5 10).1 = "linear"
       ∧ ((∃ k ∈ (scCurves.curve "crvB").keys, 5 < k.time
             ∧ (∀ k2 ∈ (scCurves.curve "crvB").keys, 5 < k2.time → k.time ≤ k2.time)
             ∧ (keyTangents scCurves ["crvB"] 5 5 10).1 =
                 (if k.inTangentType ∈ TANGENTS then k.inTangentType else "linear"))
          ∨ ((∀ k ∈ (scCurves.curve "crvB").keys, k.time ≤ 5)
             ∧ (keyTangents scCurves ["crvB"] 5 5 10).1 = "auto"))
       ∧ ((∃ k ∈ (scCurves.curve "crvB").keys, k.time < 10
             ∧ (∀ k2 ∈ (scCurves.curve "crvB").keys, k2.time < 10 → k.time ≤ k2.time)
             ∧ (keyTangents scCurves ["crvB"] 10 5 10).2 =
                 (if k.outTangentType ∈ TANGENTS then k.outTangentType else "linear"))
          ∨ ((∀ k ∈ (scCurves.curve "crvB").keys, 10 ≤ k.time)
             ∧ (keyTangents scCurves ["crvB"] 10 5 10).2 = "auto"))) :=
  ⟨by decide, by decide,
   c3_amended scCurves "crvB" [] 5 10 (by decide) (by decide)⟩

/-- Claim C4, counterexample: `anchorSelection` does not attempt the remaining
nodes after one node fails.  In `scFail` both `"A"` and `"B"` are selected and
every channel is keyable, but sampling node `"A"` raises; the whole
`anchorSelection` run stops with that error after `"A"`'s aborted undo chunk —
its trace holds no op at all for `"B"` (no set-key op whatsoever) — even
though anchoring `"B"` alone would succeed and set keys. -/
theorem c4_counterexample :
    anchorSelection scFail "" 1 3 =
      ⟨[Op.undoOpen, Op.undoClose], Except.error "node A was deleted"⟩
    ∧ (∀ op ∈ (anchorSelection scFail "" 1 3).ops, op.isSetKey = false)
    ∧ (∃ op ∈ (anchorTransform scFail "B" "" 1 3).ops, op.isSetKey = true)
    ∧ (anchorTransform scFail "B" "" 1 3).res = Except.ok () :=
  ⟨by decide, by decide, by decide, by decide⟩

/-- Claim C4, amended: the selected transforms are anchored sequentially, but
not independently — the loop has no exception handler, so when anchoring the
first transform raises a fatal error, `anchorSelection` propagates it and the
remaining transforms are not attempted: its result is exactly the failing
node's trace and error. -/
theorem c4_amended (s : Scene) (driver : String) (start e : Int)
    (t1 : String) (ts : List String) (ops : List Op) (err : String)
    (hsel : s.selection.filter (fun x => !(x == driver)) = t1 :: ts)
    (hgate : ((t1 :: ts).flatMap (fun x => getInvalidAttributes s x)) = []
        ∨ s.confirm ((t1 :: ts).flatMap (fun x => getInvalidAttributes s x)) = true)
    (hfail : anchorTransform s t1 driver start e = ⟨ops, Except.error err⟩) :
    anchorSelection s driver start e = ⟨ops, Except.error err⟩ := by
  unfold anchorSelection
  rw [hsel]
  have hcond : (!((t1 :: ts).flatMap (fun t => getInvalidAttributes s t)).isEmpty
      && !s.confirm ((t1 :: ts).flatMap (fun t => getInvalidAttributes s t))) = false := by
    rcases hgate with h | h <;> rw [h] <;> simp
  show (if (!((t1 :: ts).flatMap (fun t => getInvalidAttributes s t)).isEmpty
        && !s.confirm ((t1 :: ts).flatMap (fun t => getInvalidAttributes s t))) = true
      then pure ()
      else forList (t1 :: ts) (fun t => anchorTransform s t driver start e)) =
    (⟨ops, Except.error err⟩ : HostM Unit)
  rw [hcond]
  rw [if_neg (by decide : ¬(false = true))]
  rw [forList_cons]
  rw [hostM_bind_error (fun _ => forList ts (fun t => anchorTransform s t driver start e))
        (show (anchorTransform s t1 driver start e).res = Except.error err by rw [hfail])]
  rw [hfail]

theorem c4_witness :
    (scFail.selection.filter (fun x => !(x == "")) = ["A", "B"])
    ∧ ((["A", "B"].flatMap (fun x => getInvalidAttributes scFail x)) = []
        ∨ scFail.confirm (["A", "B"].flatMap (fun x => getInvalidAttributes scFail x)) = true)
    ∧ (anchorTransform scFail "A" "" 1 3 =
        ⟨[Op.undoOpen, Op.undoClose], Except.error "node A was deleted"⟩)
    ∧ anchorSelection scFail "" 1 3 =
        ⟨[Op.undoOpen, Op.undoClose], Except.error "node A was deleted"⟩ :=
  ⟨by decide, Or.inl (by decide), by decide,
   c4_amended scFail "" 1 3 "A" ["B"] [Op.undoOpen, Op.undoClose] "node A was deleted"
     (by decide) (Or.inl (by decide)) (by decide)⟩
